import Mathlib

/-!
Verification of `Analyse_auth.py`, a single-file SSH failed-login log analyser.

The Python source is shallowly embedded:
* the regular expression `PATTERN` is embedded as a small backtracking
  matcher (`RE`, `matchRE`, `reSearch`) with Python `re.search` semantics:
  leftmost start position, greedy repetition (longest alternative first),
  left alternative first, `.` matching every character but a newline.
  Python's Unicode classes `\w`, `\d`, `\s` are modelled by their ASCII
  restrictions, which is exact on ASCII log lines;
* `datetime.datetime` values are a six-field structure of naturals and the
  constructor's calendar validation is `mkDatetime`;
* `parse_line`, `analyze_log`, `Counter.most_common`, `save_csv`,
  `pretty_print_summary` and `main` become Lean functions; the file handle
  is abstracted to the list of decoded lines, and the ambient
  `datetime.now().year` default becomes an explicit `year` argument;
* a Python expression that raises an uncaught exception (comparing a
  `datetime` with `None` raises `TypeError`) is modelled with
  `Except Unit`, `.error ()` standing for the raised exception.
-/

namespace AnalyseAuth

/-! ## Character classes (ASCII restriction of Python's `\w`, `\d`, `\s`, `.`) -/

/-- Python `\w` (ASCII part): letters, digits and the underscore. -/
def wordC (c : Char) : Bool := c.isAlphanum || c == '_'

/-- Python `\d` (ASCII part): decimal digits. -/
def digitC (c : Char) : Bool := c.isDigit

/-- Python `\s` (ASCII part): space, tab, newline, carriage return,
vertical tab, form feed. -/
def spaceC (c : Char) : Bool :=
  c == ' ' || c == '\t' || c == '\n' || c == '\r' || c.toNat == 11 || c.toNat == 12

/-- Python `.` without `DOTALL`: any character except a newline. -/
def dotC (c : Char) : Bool := c != '\n'

/-! ## A small regular-expression engine

Just enough to express `PATTERN`: literals, counted character classes
(`\w{3}`, `\d{1,2}`, `\s+`, `.*` are all counted classes), alternation,
concatenation and named (here: numbered) capturing groups. -/

/-- Regular expressions as used by `PATTERN`.  `cls p lo hi` is `p{lo,hi}`
(`hi = none` meaning unbounded), matched greedily as Python does. -/
inductive RE where
  | lit (w : List Char)
  | cls (p : Char → Bool) (lo : Nat) (hi : Option Nat)
  | alt (a b : RE)
  | seq (a b : RE)
  | grp (i : Nat) (r : RE)

/-- Captured groups: group number paired with the captured characters. -/
def Caps := List (Nat × List Char)

/-- Length of the longest prefix of `s` whose characters all satisfy `p`. -/
def maxRun (p : Char → Bool) : List Char → Nat
  | [] => 0
  | c :: t => if p c then maxRun p t + 1 else 0

/-- Greedy repetition: try to consume `j` characters, then `j - 1`, …,
down to `lo`, handing the remaining suffix to the continuation `k`. -/
def tryLens (k : List Char → Option Caps) (s : List Char) (lo : Nat) : Nat → Option Caps
  | 0 => if lo = 0 then k s else none
  | j + 1 =>
    if j + 1 < lo then none
    else
      match k (s.drop (j + 1)) with
      | some r => some r
      | none => tryLens k s lo j

/-- Backtracking matcher in continuation-passing style, with Python's
priorities: greedy repetition, left alternative first.  Capturing groups
are assembled on the successful path only and never influence control
flow (the pattern has no backreferences). -/
def matchRE : RE → List Char → (List Char → Option Caps) → Option Caps
  | .lit w, s, k => if w.isPrefixOf s then k (s.drop w.length) else none
  | .cls p lo hi, s, k =>
    let m := maxRun p s
    tryLens k s lo (match hi with | none => m | some h => min m h)
  | .alt a b, s, k =>
    match matchRE a s k with
    | some r => some r
    | none => matchRE b s k
  | .seq a b, s, k => matchRE a s (fun s1 => matchRE b s1 k)
  | .grp i r, s, k =>
    matchRE r s (fun s1 => (k s1).map (fun cs => (i, s.take (s.length - s1.length)) :: cs))

/-- `re.search`: try to match at offset 0, then 1, … returning the first
success (a search need not consume the whole string). -/
def reSearchAux (r : RE) : List Char → Option Caps
  | [] => matchRE r [] (fun _ => some [])
  | c :: t =>
    match matchRE r (c :: t) (fun _ => some []) with
    | some res => some res
    | none => reSearchAux r t

/-- Model of `PATTERN.search(line)`, returning the captured groups. -/
def reSearch (r : RE) (s : List Char) : Option Caps := reSearchAux r s

/-! ## The fixed failure pattern

`(?P<month>\w{3})\s+(?P<day>\d{1,2})\s+(?P<time>\d{2}:\d{2}:\d{2})`
`.*sshd.*(?:Failed password|Invalid user).*from\s+(?P<ip>\d{1,3}(?:\.\d{1,3}){3})`

Group numbers: 1 = month, 2 = day, 3 = time, 4 = ip. -/

/-- `\d{2}:\d{2}:\d{2}`. -/
def timeRE : RE :=
  .seq (.cls digitC 2 (some 2)) (.seq (.lit [':'])
    (.seq (.cls digitC 2 (some 2)) (.seq (.lit [':']) (.cls digitC 2 (some 2)))))

/-- `\d{1,3}`: one octet of the dotted quad. -/
def octetRE : RE := .cls digitC 1 (some 3)

/-- `\d{1,3}(?:\.\d{1,3}){3}`, the three-fold repetition unrolled. -/
def ipRE : RE :=
  .seq octetRE (.seq (.lit ['.']) (.seq octetRE (.seq (.lit ['.'])
    (.seq octetRE (.seq (.lit ['.']) octetRE)))))

/-- `.*` (no newline). -/
def gapRE : RE := .cls dotC 0 none

/-- `\s+`. -/
def spacesRE : RE := .cls spaceC 1 none

/-- The compiled `PATTERN` of the source. -/
def PATTERN : RE :=
  .seq (.grp 1 (.cls wordC 3 (some 3)))
  (.seq spacesRE
  (.seq (.grp 2 (.cls digitC 1 (some 2)))
  (.seq spacesRE
  (.seq (.grp 3 timeRE)
  (.seq gapRE
  (.seq (.lit ("sshd".toList))
  (.seq gapRE
  (.seq (.alt (.lit ("Failed password".toList)) (.lit ("Invalid user".toList)))
  (.seq gapRE
  (.seq (.lit ("from".toList))
  (.seq spacesRE (.grp 4 ipRE))))))))))))

/-- `m.group(i)`: the captured text of group `i` (groups 1–4 are always
present on a successful match of `PATTERN`). -/
def capGet : List (Nat × List Char) → Nat → List Char
  | [], _ => []
  | (j, w) :: t, i => if j = i then w else capGet t i

/-! ## `datetime.datetime` model -/

/-- A `datetime.datetime` value (date plus time of day, second precision,
as built by the source). -/
structure DateTime where
  year : Nat
  month : Nat
  day : Nat
  hour : Nat
  minute : Nat
  second : Nat
deriving DecidableEq, Repr

/-- Gregorian leap year, as `datetime` uses. -/
def isLeap (y : Nat) : Bool := y % 4 == 0 && (y % 100 != 0 || y % 400 == 0)

/-- Days in a month of a given year. -/
def daysInMonth (y m : Nat) : Nat :=
  if m = 2 then (if isLeap y then 29 else 28)
  else if m = 4 ∨ m = 6 ∨ m = 9 ∨ m = 11 then 30
  else 31

/-- The `datetime.datetime(y, mo, d, h, mi, s)` constructor: `some` value
on valid input, `none` when the constructor would raise (the source wraps
the call in `try … except Exception: dt = None`). -/
def mkDatetime (y mo d h mi s : Nat) : Option DateTime :=
  if 1 ≤ y ∧ y ≤ 9999 ∧ 1 ≤ mo ∧ mo ≤ 12 ∧ 1 ≤ d ∧ d ≤ daysInMonth y mo
      ∧ h ≤ 23 ∧ mi ≤ 59 ∧ s ≤ 59 then
    some ⟨y, mo, d, h, mi, s⟩
  else none

/-- Python `datetime` comparison: lexicographic on
(year, month, day, hour, minute, second). -/
def DateTime.ltb (a b : DateTime) : Bool :=
  a.year < b.year || (a.year == b.year &&
    (a.month < b.month || (a.month == b.month &&
      (a.day < b.day || (a.day == b.day &&
        (a.hour < b.hour || (a.hour == b.hour &&
          (a.minute < b.minute || (a.minute == b.minute &&
            a.second < b.second)))))))))

/-- `a ≤ b` for the (total, lexicographic) `datetime` order: not `b < a`. -/
def DateTime.leb (a b : DateTime) : Bool := !(DateTime.ltb b a)

/-! ## `parse_line` -/

/-- The `MONTHS` table: `.get(s, 0)`. -/
def MONTHS_get (s : List Char) : Nat :=
  if s = "Jan".toList then 1 else if s = "Feb".toList then 2
  else if s = "Mar".toList then 3 else if s = "Apr".toList then 4
  else if s = "May".toList then 5 else if s = "Jun".toList then 6
  else if s = "Jul".toList then 7 else if s = "Aug".toList then 8
  else if s = "Sep".toList then 9 else if s = "Oct".toList then 10
  else if s = "Nov".toList then 11 else if s = "Dec".toList then 12
  else 0

/-- Python `int` on a nonempty string of decimal digits. -/
def digitsToNat (s : List Char) : Nat :=
  s.foldl (fun n c => n * 10 + (c.toNat - 48)) 0

/-- Split a character list on `:` (Python `str.split(sep)` for a
one-character separator). -/
def splitColon : List Char → List (List Char)
  | [] => [[]]
  | c :: t =>
    if c = ':' then [] :: splitColon t
    else
      match splitColon t with
      | [] => [[c]]
      | w :: ws => (c :: w) :: ws

/-- The timestamp built by `parse_line` from the captured groups:
`datetime(year, month, day, *map(int, timestr.split(':')))` guarded by
`try … except Exception: dt = None`. -/
def groupsDT (year : Nat) (caps : List (Nat × List Char)) : Option DateTime :=
  let month := MONTHS_get (capGet caps 1)
  let day := digitsToNat (capGet caps 2)
  match (splitColon (capGet caps 3)).map digitsToNat with
  | [h, mi, s] => mkDatetime year month day h mi s
  | _ => none

/-- `parse_line(line, year)`: `None` when the pattern does not match,
otherwise the captured ip together with the (possibly absent) timestamp.
The `year=None → datetime.now().year` default is passed explicitly. -/
def parse_line (line : String) (year : Nat) : Option (String × Option DateTime) :=
  match reSearch PATTERN line.data with
  | none => none
  | some caps => some (String.mk (capGet caps 4), groupsDT year caps)

/-! ## `analyze_log`

The aggregate state.  `counts` models the `Counter` and `first_seen` /
`last_seen` the two dicts, all as insertion-ordered association lists
(CPython dicts preserve insertion order).  A raised, uncaught exception
(the `TypeError` from comparing a `datetime` with `None`) is `.error ()`. -/

/-- Dict / `Counter` lookup (`ip in d`, `d[ip]`, `d.get(ip)`). -/
def lookupA {β : Type} : List (String × β) → String → Option β
  | [], _ => none
  | (k, v) :: t, ip => if k = ip then some v else lookupA t ip

/-- Dict assignment `d[ip] = v`: update in place, or append a new key. -/
def setA {β : Type} : List (String × β) → String → β → List (String × β)
  | [], ip, v => [(ip, v)]
  | (k, w) :: t, ip, v => if k = ip then (k, v) :: t else (k, w) :: setA t ip v

/-- `counts[ip] += 1` on a `Counter` (missing key counts as 0; a new key
is appended in insertion order). -/
def counterAdd : List (String × Nat) → String → List (String × Nat)
  | [], ip => [(ip, 1)]
  | (k, v) :: t, ip => if k = ip then (k, v + 1) :: t else (k, v) :: counterAdd t ip

/-- One first/last-seen update,
`if ip not in m or (dt and cmp dt m[ip]): m[ip] = dt`, where `cmp` is `<`
for `first_seen` and `>` for `last_seen`.  When the stored value is
absent (`None`) and `dt` is a real timestamp, Python evaluates
`dt < None` / `dt > None`, which raises `TypeError`: modelled as
`.error ()`. -/
def updSeen (cmp : DateTime → DateTime → Bool)
    (m : List (String × Option DateTime)) (ip : String) (dt : Option DateTime) :
    Except Unit (List (String × Option DateTime)) :=
  match lookupA m ip with
  | none => .ok (setA m ip dt)
  | some cur =>
    match dt with
    | none => .ok m
    | some d =>
      match cur with
      | none => .error ()
      | some c => .ok (if cmp d c then setA m ip (some d) else m)

/-- The result dict of `analyze_log` (also the loop state). -/
structure AnalysisResult where
  total_lines : Nat
  matched_lines : Nat
  counts : List (String × Nat)
  first_seen : List (String × Option DateTime)
  last_seen : List (String × Option DateTime)
deriving DecidableEq, Repr

/-- The body of the `for line in f` loop for one line. -/
def analyze_step (year : Nat) (st : AnalysisResult) (line : String) :
    Except Unit AnalysisResult :=
  let st := { st with total_lines := st.total_lines + 1 }
  match parse_line line year with
  | none => .ok st
  | some (ip, dt) =>
    let st := { st with
      matched_lines := st.matched_lines + 1
      counts := counterAdd st.counts ip }
    match updSeen DateTime.ltb st.first_seen ip dt with
    | .error e => .error e
    | .ok fs =>
      match updSeen (fun d c => DateTime.ltb c d) st.last_seen ip dt with
      | .error e => .error e
      | .ok ls => .ok { st with first_seen := fs, last_seen := ls }

/-- The `for line in f` loop. -/
def analyze_lines (year : Nat) (st : AnalysisResult) :
    List String → Except Unit AnalysisResult
  | [] => .ok st
  | l :: ls =>
    match analyze_step year st l with
    | .error e => .error e
    | .ok st1 => analyze_lines year st1 ls

/-- `analyze_log(path)`, with the opened file abstracted to its list of
decoded lines and the ambient current year passed explicitly.  (The
`top_n` parameter of the source is unused during aggregation and
dropped.) -/
def analyze_log (year : Nat) (lines : List String) : Except Unit AnalysisResult :=
  analyze_lines year ⟨0, 0, [], [], []⟩ lines

/-! ## `Counter.most_common`

CPython's `most_common` is `sorted(self.items(), key=count, reverse=True)`
(a stable sort; `most_common(n)` is documented equivalent to its `n`-element
prefix).  Embedded as a stable insertion sort by descending count. -/

/-- Insert an element into a descending-by-count sorted list, after every
element with a strictly greater count and before ties (the element being
inserted is the earlier one, so stability puts it first among equals). -/
def insertDesc (x : String × Nat) : List (String × Nat) → List (String × Nat)
  | [] => [x]
  | y :: ys => if x.2 < y.2 then y :: insertDesc x ys else x :: y :: ys

/-- `counts.most_common()`: stable sort by descending count. -/
def most_common : List (String × Nat) → List (String × Nat)
  | [] => []
  | x :: xs => insertDesc x (most_common xs)

/-! ## `save_csv` and `pretty_print_summary` -/

/-- Zero-pad a natural to two digits. -/
def pad2 (n : Nat) : String := if n < 10 then "0" ++ toString n else toString n

/-- Zero-pad a natural to four digits. -/
def pad4 (n : Nat) : String :=
  if n < 10 then "000" ++ toString n
  else if n < 100 then "00" ++ toString n
  else if n < 1000 then "0" ++ toString n
  else toString n

/-- `datetime.isoformat()`: `YYYY-MM-DDTHH:MM:SS`. -/
def DateTime.isoformat (d : DateTime) : String :=
  pad4 d.year ++ "-" ++ pad2 d.month ++ "-" ++ pad2 d.day ++ "T" ++
    pad2 d.hour ++ ":" ++ pad2 d.minute ++ ":" ++ pad2 d.second

/-- One data row of the CSV (`ip,count,first_seen,last_seen`). -/
structure CsvRow where
  ip : String
  count : Nat
  first : String
  last : String
deriving DecidableEq, Repr

/-- `fs.isoformat() if fs else ''`. -/
def renderTs : Option DateTime → String
  | none => ""
  | some d => DateTime.isoformat d

/-- The data rows `save_csv` writes after the header: one per IP, in
`counts.most_common()` order, timestamps via `dict.get` (`None` when the
key is missing). -/
def save_csv_rows (counts : List (String × Nat))
    (first_seen last_seen : List (String × Option DateTime)) : List CsvRow :=
  (most_common counts).map (fun p =>
    ⟨p.1, p.2, renderTs ((lookupA first_seen p.1).join),
      renderTs ((lookupA last_seen p.1).join)⟩)

/-- What `pretty_print_summary` prints: the two totals and the top rows
(the text decoration around them carries no further data). -/
structure SummaryOut where
  total_lines : Nat
  matched_lines : Nat
  topRows : List (String × Nat × Option DateTime × Option DateTime)
deriving DecidableEq, Repr

/-- `pretty_print_summary(result, top_n)`: totals, then one row per entry
of `counts.most_common(top_n)`. -/
def pretty_print_summary (r : AnalysisResult) (top_n : Nat) : SummaryOut :=
  ⟨r.total_lines, r.matched_lines,
    ((most_common r.counts).take top_n).map (fun p =>
      (p.1, p.2, (lookupA r.first_seen p.1).join, (lookupA r.last_seen p.1).join))⟩

/-! ## `main` -/

/-- The observable outcome of `main`: whether the file-not-found message
was printed, the summary printed (if any) and the CSV rows written (if
any). -/
structure MainOut where
  fileNotFoundMsg : Bool
  summary : Option SummaryOut
  csv : Option (List CsvRow)
deriving DecidableEq, Repr

/-- `main()` after argument parsing: `file` is `none` when the path does
not exist (`open` raises `FileNotFoundError`, the only exception caught),
otherwise the file's lines.  `out` is the optional `--out` path.  Any
other exception (the analyser's `TypeError`) propagates as `.error`. -/
def main_run (year : Nat) (file : Option (List String)) (top : Nat)
    (out : Option String) : Except Unit MainOut :=
  match file with
  | none => .ok ⟨true, none, none⟩
  | some lines =>
    match analyze_log year lines with
    | .error e => .error e
    | .ok r =>
      .ok ⟨false, some (pretty_print_summary r top),
        match out with
        | none => none
        | some _ => some (save_csv_rows r.counts r.first_seen r.last_seen)⟩

/-! ## Spec-side definitions

These follow the specification's words, to be compared with the source
embedding above. -/

/-- Declarative semantics of the regular-expression fragment: `Accepts r u`
says the characters `u` are one complete match of `r`. -/
inductive Accepts : RE → List Char → Prop where
  | lit (w : List Char) : Accepts (.lit w) w
  | cls (p : Char → Bool) (lo : Nat) (hi : Option Nat) (u : List Char)
      (hall : ∀ c ∈ u, p c = true) (hlo : lo ≤ u.length)
      (hhi : ∀ h, hi = some h → u.length ≤ h) : Accepts (.cls p lo hi) u
  | altL {a b : RE} {u : List Char} : Accepts a u → Accepts (.alt a b) u
  | altR {a b : RE} {u : List Char} : Accepts b u → Accepts (.alt a b) u
  | seq {a b : RE} {u v : List Char} :
      Accepts a u → Accepts b v → Accepts (.seq a b) (u ++ v)
  | grp {i : Nat} {r : RE} {u : List Char} : Accepts r u → Accepts (.grp i r) u

/-- Spec predicate: the line contains the substring `sshd`. -/
def hasSshd (l : List Char) : Bool := decide ("sshd".toList <:+: l)

/-- Spec predicate: the line contains one of the two trigger phrases. -/
def hasTrigger (l : List Char) : Bool :=
  decide ("Failed password".toList <:+: l) || decide ("Invalid user".toList <:+: l)

/-- `from\s+\d{1,3}(?:\.\d{1,3}){3}`: a dotted-quad IP preceded by `from`. -/
def fromIpRE : RE := .seq (.lit ("from".toList)) (.seq spacesRE ipRE)

/-- Spec predicate: the line contains a dotted-quad IP preceded by `from`. -/
def hasFromIp (l : List Char) : Bool := (reSearch fromIpRE l).isSome

/-! ## Proof-side invariant definitions -/

/-- Invariant relating the two timestamp dicts when every parsed
timestamp is present: same keys, only present values, and
`first_seen ≤ last_seen` (as "not `last < first`") per key. -/
def SeenPair (fs ls : List (String × Option DateTime)) : Prop :=
  fs.map Prod.fst = ls.map Prod.fst ∧
  (∀ p ∈ fs, p.2.isSome = true) ∧
  (∀ p ∈ ls, p.2.isSome = true) ∧
  ∀ ip f l, lookupA fs ip = some (some f) → lookupA ls ip = some (some l) →
    DateTime.ltb l f = false

/-- Invariant: the three dicts have the same keys in the same insertion
order, and every count is positive. -/
def KeysAligned (st : AnalysisResult) : Prop :=
  st.first_seen.map Prod.fst = st.counts.map Prod.fst ∧
  st.last_seen.map Prod.fst = st.counts.map Prod.fst ∧
  ∀ p ∈ st.counts, 1 ≤ p.2

/-- A concrete analysis result used to instantiate reporter theorems. -/
def Rw : AnalysisResult :=
  ⟨5, 3, [("1.2.3.4", 2), ("5.6.7.8", 1)],
    [("1.2.3.4", none), ("5.6.7.8", none)],
    [("1.2.3.4", none), ("5.6.7.8", none)]⟩

/-- Concrete input lines used to instantiate analyzer theorems. -/
def La : List String :=
  ["Apr 10 12:34:56 h sshd: Failed password for r from 1.2.3.4 p",
   "noise",
   "Apr 10 12:40:00 h sshd: Invalid user admin from 1.2.3.4 x"]

/-- The analysis result of `La` (`analyze_log 2024 La = .ok Ra`). -/
def Ra : AnalysisResult :=
  ⟨3, 2, [("1.2.3.4", 2)],
    [("1.2.3.4", some ⟨2024, 4, 10, 12, 34, 56⟩)],
    [("1.2.3.4", some ⟨2024, 4, 10, 12, 40, 0⟩)]⟩

/-! ## Matcher characterization -/

theorem isSomeMap {α β : Type} (f : α → β) (x : Option α) :
    (x.map f).isSome = x.isSome := by
  cases x <;> rfl

theorem maxRun_le_length (p : Char → Bool) (s : List Char) : maxRun p s ≤ s.length := by
  induction s with
  | nil => simp [maxRun]
  | cons c t ih =>
    simp only [maxRun, List.length_cons]
    split <;> omega

theorem maxRun_take (p : Char → Bool) (s : List Char) (i : Nat) (hi : i ≤ maxRun p s) :
    ∀ c ∈ s.take i, p c = true := by
  induction s generalizing i with
  | nil => simp
  | cons c t ih =>
    match i with
    | 0 => simp
    | i + 1 =>
      simp only [maxRun] at hi
      by_cases hc : p c
      · simp only [hc, if_true] at hi
        intro d hd
        simp only [List.take_succ_cons, List.mem_cons] at hd
        rcases hd with h | h
        · exact h ▸ hc
        · exact ih i (by omega) d h
      · simp [hc] at hi

theorem maxRun_ge_of_all (p : Char → Bool) (u v : List Char)
    (h : ∀ c ∈ u, p c = true) : u.length ≤ maxRun p (u ++ v) := by
  induction u with
  | nil => simp
  | cons c t ih =>
    have hc : p c = true := h c (List.mem_cons_self c t)
    have hstep : maxRun p ((c :: t) ++ v) = maxRun p (t ++ v) + 1 := by
      simp only [List.cons_append, maxRun, hc, if_true, List.append_eq]
    rw [hstep, List.length_cons]
    have := ih (fun d hd => h d (List.mem_cons_of_mem c hd))
    omega

theorem tryLens_isSome_iff (k : List Char → Option Caps) (s : List Char) (lo : Nat)
    (j : Nat) :
    (tryLens k s lo j).isSome = true ↔
      ∃ i, lo ≤ i ∧ i ≤ j ∧ (k (s.drop i)).isSome = true := by
  induction j with
  | zero =>
    simp only [tryLens]
    by_cases hlo : lo = 0
    · subst hlo
      simp only [if_true]
      constructor
      · intro h
        exact ⟨0, Nat.le_refl 0, Nat.le_refl 0, by simpa using h⟩
      · rintro ⟨i, -, hi0, hk⟩
        have : i = 0 := by omega
        subst this
        simpa using hk
    · simp only [hlo, if_false]
      constructor
      · intro h; simp at h
      · rintro ⟨i, hloi, hi0, -⟩
        omega
  | succ j ih =>
    simp only [tryLens]
    by_cases hlt : j + 1 < lo
    · simp only [hlt, if_true]
      constructor
      · intro h; simp at h
      · rintro ⟨i, hloi, hij, -⟩
        omega
    · simp only [hlt, if_false]
      cases hk : k (s.drop (j + 1)) with
      | some r =>
        constructor
        · intro _
          exact ⟨j + 1, by omega, Nat.le_refl _, by rw [hk]; rfl⟩
        · intro _; rfl
      | none =>
        rw [ih]
        constructor
        · rintro ⟨i, h1, h2, h3⟩
          exact ⟨i, h1, by omega, h3⟩
        · rintro ⟨i, h1, h2, h3⟩
          by_cases hij : i = j + 1
          · subst hij
            rw [hk] at h3
            simp at h3
          · exact ⟨i, h1, by omega, h3⟩

theorem matchRE_isSome_iff : ∀ (r : RE) (s : List Char) (k : List Char → Option Caps),
    (matchRE r s k).isSome = true ↔
      ∃ u v, s = u ++ v ∧ Accepts r u ∧ (k v).isSome = true := by
  intro r
  induction r with
  | lit w =>
    intro s k
    simp only [matchRE]
    by_cases hp : w.isPrefixOf s
    · obtain ⟨t, ht⟩ := List.isPrefixOf_iff_prefix.mp hp
      subst ht
      simp only [hp, if_true, List.drop_left]
      constructor
      · intro h
        exact ⟨w, t, rfl, Accepts.lit w, h⟩
      · rintro ⟨u, v, he, ha, hk⟩
        cases ha
        have : t = v := by
          have := List.append_cancel_left he
          exact this
        exact this ▸ hk
    · simp only [hp, if_false]
      constructor
      · intro h; simp at h
      · rintro ⟨u, v, he, ha, -⟩
        cases ha
        exact absurd ( List.isPrefixOf_iff_prefix.mpr ⟨v, he.symm⟩) hp
  | cls p lo hi =>
    intro s k
    simp only [matchRE]
    rw [tryLens_isSome_iff]
    constructor
    · rintro ⟨i, hlo, hhi, hk⟩
      have him : i ≤ maxRun p s := by
        cases hi with
        | none => simpa using hhi
        | some h => simp only at hhi; omega
      have hilen : i ≤ s.length := Nat.le_trans him (maxRun_le_length p s)
      refine ⟨s.take i, s.drop i, (List.take_append_drop i s).symm, ?_, hk⟩
      refine Accepts.cls p lo hi (s.take i) (maxRun_take p s i him) ?_ ?_
      · rw [List.length_take]
        omega
      · intro h hh
        subst hh
        rw [List.length_take]
        simp only at hhi
        omega
    · rintro ⟨u, v, he, ha, hk⟩
      cases ha with
      | cls _ _ _ _ hall hlo hhi =>
        refine ⟨u.length, hlo, ?_, ?_⟩
        · have hge : u.length ≤ maxRun p s := he ▸ maxRun_ge_of_all p u v hall
          cases hi with
          | none => simpa using hge
          | some h =>
            have := hhi h rfl
            simp only
            omega
        · rw [he, List.drop_left]
          exact hk
  | alt a b iha ihb =>
    intro s k
    simp only [matchRE]
    cases hm : matchRE a s k with
    | some r =>
      constructor
      · intro _
        have : (matchRE a s k).isSome = true := by rw [hm]; rfl
        obtain ⟨u, v, he, ha, hk⟩ := (iha s k).mp this
        exact ⟨u, v, he, Accepts.altL ha, hk⟩
      · intro _; rfl
    | none =>
      rw [ihb s k]
      constructor
      · rintro ⟨u, v, he, hb, hk⟩
        exact ⟨u, v, he, Accepts.altR hb, hk⟩
      · rintro ⟨u, v, he, ha, hk⟩
        cases ha with
        | altL h =>
          have : (matchRE a s k).isSome = true := (iha s k).mpr ⟨u, v, he, h, hk⟩
          rw [hm] at this
          simp at this
        | altR h => exact ⟨u, v, he, h, hk⟩
  | seq a b iha ihb =>
    intro s k
    simp only [matchRE]
    rw [iha s (fun s1 => matchRE b s1 k)]
    constructor
    · rintro ⟨u, v, he, ha, hk⟩
      obtain ⟨u2, v2, he2, hb, hk2⟩ := (ihb v k).mp hk
      refine ⟨u ++ u2, v2, ?_, Accepts.seq ha hb, hk2⟩
      rw [he, he2, List.append_assoc]
    · rintro ⟨u, v, he, ha, hk⟩
      cases ha with
      | seq h1 h2 =>
        rename_i u1 u2
        refine ⟨u1, u2 ++ v, by rw [he, List.append_assoc], h1, ?_⟩
        exact (ihb (u2 ++ v) k).mpr ⟨u2, v, rfl, h2, hk⟩
  | grp i r ih =>
    intro s k
    simp only [matchRE]
    rw [ih s _]
    constructor
    · rintro ⟨u, v, he, hr, hk⟩
      rw [isSomeMap] at hk
      exact ⟨u, v, he, Accepts.grp hr, hk⟩
    · rintro ⟨u, v, he, ha, hk⟩
      cases ha with
      | grp hr =>
        refine ⟨u, v, he, hr, ?_⟩
        rw [isSomeMap]
        exact hk

theorem reSearchAux_isSome_iff (r : RE) : ∀ s : List Char,
    (reSearchAux r s).isSome = true ↔
      ∃ pre u v, s = pre ++ u ++ v ∧ Accepts r u := by
  intro s
  induction s with
  | nil =>
    simp only [reSearchAux]
    rw [matchRE_isSome_iff]
    constructor
    · rintro ⟨u, v, he, ha, -⟩
      exact ⟨[], u, v, by simpa using he, ha⟩
    · rintro ⟨pre, u, v, he, ha⟩
      rw [List.append_assoc] at he
      obtain ⟨h1, h2⟩ := List.append_eq_nil.mp he.symm
      obtain ⟨h3, h4⟩ := List.append_eq_nil.mp h2
      refine ⟨u, v, ?_, ha, rfl⟩
      rw [h3, h4]
      rfl
  | cons c t ih =>
    simp only [reSearchAux]
    cases hm : matchRE r (c :: t) (fun _ => some []) with
    | some res =>
      constructor
      · intro _
        have : (matchRE r (c :: t) (fun _ => some [])).isSome = true := by rw [hm]; rfl
        obtain ⟨u, v, he, ha, -⟩ := (matchRE_isSome_iff r (c :: t) _).mp this
        exact ⟨[], u, v, by simpa using he, ha⟩
      · intro _; rfl
    | none =>
      rw [ih]
      constructor
      · rintro ⟨pre, u, v, he, ha⟩
        exact ⟨c :: pre, u, v, by rw [he]; rfl, ha⟩
      · rintro ⟨pre, u, v, he, ha⟩
        cases pre with
        | nil =>
          exfalso
          have : (matchRE r (c :: t) (fun _ => some [])).isSome = true :=
            (matchRE_isSome_iff r (c :: t) _).mpr ⟨u, v, by simpa using he, ha, rfl⟩
          rw [hm] at this
          simp at this
        | cons p ps =>
          have he2 : t = ps ++ u ++ v := by
            simpa using congrArg List.tail he
          exact ⟨ps, u, v, he2, ha⟩

theorem reSearch_isSome_iff (r : RE) (s : List Char) :
    (reSearch r s).isSome = true ↔ ∃ pre u v, s = pre ++ u ++ v ∧ Accepts r u :=
  reSearchAux_isSome_iff r s

theorem parse_line_eq_none_iff (line : String) (year : Nat) :
    parse_line line year = none ↔ reSearch PATTERN line.data = none := by
  cases h : reSearch PATTERN line.data <;> simp [parse_line, h]

/-! ## The `datetime` order is a strict total order -/

theorem ltb_irrefl (a : DateTime) : DateTime.ltb a a = false := by
  simp [DateTime.ltb]

theorem ltb_conn {a b : DateTime} (h1 : DateTime.ltb a b = false)
    (h2 : DateTime.ltb b a = false) : a = b := by
  cases a with
  | mk ay amo ad ah ami as =>
    cases b with
    | mk by_ bmo bd bh bmi bs =>
      simp only [DateTime.ltb, Bool.or_eq_false_iff, Bool.and_eq_false_iff,
        decide_eq_false_iff_not, Nat.not_lt, beq_eq_false_iff_ne, ne_eq,
        DateTime.mk.injEq] at h1 h2 ⊢
      omega

/-! ## Association-list helpers -/

theorem lookupA_eq_none_iff {β : Type} (l : List (String × β)) (ip : String) :
    lookupA l ip = none ↔ ip ∉ l.map Prod.fst := by
  induction l with
  | nil => simp [lookupA]
  | cons p t ih =>
    obtain ⟨k, v⟩ := p
    by_cases hk : k = ip
    · subst hk
      simp [lookupA]
    · simp only [lookupA, hk, if_false, List.map_cons, List.mem_cons]
      rw [ih]
      constructor
      · intro h hmem
        rcases hmem with h2 | h2
        · exact hk h2.symm
        · exact h h2
      · intro h h2
        exact h (Or.inr h2)

theorem lookupA_isSome_iff {β : Type} (l : List (String × β)) (ip : String) :
    (lookupA l ip).isSome = true ↔ ip ∈ l.map Prod.fst := by
  constructor
  · intro h
    by_contra hmem
    rw [← lookupA_eq_none_iff] at hmem
    rw [hmem] at h
    simp at h
  · intro h
    cases hl : lookupA l ip with
    | some v => rfl
    | none => exact absurd h ((lookupA_eq_none_iff l ip).mp hl)

theorem lookupA_some_mem {β : Type} {l : List (String × β)} {ip : String} {v : β}
    (h : lookupA l ip = some v) : (ip, v) ∈ l := by
  induction l with
  | nil => simp [lookupA] at h
  | cons p t ih =>
    obtain ⟨k, w⟩ := p
    by_cases hk : k = ip
    · subst hk
      simp only [lookupA, if_true] at h
      cases h
      exact List.mem_cons_self _ _
    · simp only [lookupA, hk, if_false] at h
      exact List.mem_cons_of_mem _ (ih h)

theorem lookupA_setA_self {β : Type} (l : List (String × β)) (ip : String) (v : β) :
    lookupA (setA l ip v) ip = some v := by
  induction l with
  | nil => simp [setA, lookupA]
  | cons p t ih =>
    obtain ⟨k, w⟩ := p
    by_cases hk : k = ip
    · subst hk
      simp [setA, lookupA]
    · simp [setA, lookupA, hk, ih]

theorem lookupA_setA_ne {β : Type} (l : List (String × β)) (ip q : String) (v : β)
    (h : q ≠ ip) : lookupA (setA l ip v) q = lookupA l q := by
  induction l with
  | nil =>
    simp only [setA, lookupA]
    rw [if_neg (fun hh => h hh.symm)]
  | cons p t ih =>
    obtain ⟨k, w⟩ := p
    by_cases hk : k = ip
    · subst hk
      simp only [setA, if_pos rfl, lookupA]
      rw [if_neg (fun hh => h hh.symm), if_neg (fun hh => h hh.symm)]
    · simp [setA, lookupA, hk, ih]

theorem setA_keys_of_none {β : Type} (l : List (String × β)) (ip : String) (v : β)
    (h : lookupA l ip = none) :
    (setA l ip v).map Prod.fst = l.map Prod.fst ++ [ip] := by
  induction l with
  | nil => simp [setA]
  | cons p t ih =>
    obtain ⟨k, w⟩ := p
    by_cases hk : k = ip
    · subst hk
      simp [lookupA] at h
    · simp only [lookupA, hk, if_false] at h
      simp [setA, hk, ih h]

theorem setA_keys_of_some {β : Type} (l : List (String × β)) (ip : String) (v w : β)
    (h : lookupA l ip = some w) :
    (setA l ip v).map Prod.fst = l.map Prod.fst := by
  induction l with
  | nil => simp [lookupA] at h
  | cons p t ih =>
    obtain ⟨k, u⟩ := p
    by_cases hk : k = ip
    · subst hk
      simp [setA]
    · simp only [lookupA, hk, if_false] at h
      simp [setA, hk, ih h]

theorem mem_setA {β : Type} {l : List (String × β)} {ip q : String} {v w : β}
    (h : (q, w) ∈ setA l ip v) : w = v ∨ (q, w) ∈ l := by
  induction l with
  | nil =>
    simp only [setA, List.mem_singleton, Prod.mk.injEq] at h
    exact Or.inl h.2
  | cons p t ih =>
    obtain ⟨k, u⟩ := p
    by_cases hk : k = ip
    · subst hk
      simp only [setA, if_true, List.mem_cons, Prod.mk.injEq] at h
      rcases h with h | h
      · exact Or.inl h.2
      · exact Or.inr (List.mem_cons_of_mem _ h)
    · simp only [setA, hk, if_false, List.mem_cons] at h
      rcases h with h | h
      · exact Or.inr (h ▸ List.mem_cons_self _ _)
      · rcases ih h with h2 | h2
        · exact Or.inl h2
        · exact Or.inr (List.mem_cons_of_mem _ h2)

/-! ## `Counter` helpers -/

theorem counterAdd_lookup_self (l : List (String × Nat)) (ip : String) :
    lookupA (counterAdd l ip) ip = some ((lookupA l ip).getD 0 + 1) := by
  induction l with
  | nil => simp [counterAdd, lookupA]
  | cons p t ih =>
    obtain ⟨k, v⟩ := p
    by_cases hk : k = ip
    · subst hk
      simp [counterAdd, lookupA]
    · simp [counterAdd, lookupA, hk, ih]

theorem counterAdd_keys_of_none (l : List (String × Nat)) (ip : String)
    (h : lookupA l ip = none) :
    (counterAdd l ip).map Prod.fst = l.map Prod.fst ++ [ip] := by
  induction l with
  | nil => simp [counterAdd]
  | cons p t ih =>
    obtain ⟨k, v⟩ := p
    by_cases hk : k = ip
    · subst hk
      simp [lookupA] at h
    · simp only [lookupA, hk, if_false] at h
      simp [counterAdd, hk, ih h]

theorem counterAdd_keys_of_some (l : List (String × Nat)) (ip : String) (c : Nat)
    (h : lookupA l ip = some c) :
    (counterAdd l ip).map Prod.fst = l.map Prod.fst := by
  induction l with
  | nil => simp [lookupA] at h
  | cons p t ih =>
    obtain ⟨k, v⟩ := p
    by_cases hk : k = ip
    · subst hk
      simp [counterAdd]
    · simp only [lookupA, hk, if_false] at h
      simp [counterAdd, hk, ih h]

theorem counterAdd_sum (l : List (String × Nat)) (ip : String) :
    ((counterAdd l ip).map Prod.snd).sum = (l.map Prod.snd).sum + 1 := by
  induction l with
  | nil => simp [counterAdd]
  | cons p t ih =>
    obtain ⟨k, v⟩ := p
    by_cases hk : k = ip
    · subst hk
      simp only [counterAdd, if_true, List.map_cons, List.sum_cons]
      omega
    · simp only [counterAdd, hk, if_false, List.map_cons, List.sum_cons, ih]
      omega

theorem counterAdd_pos (l : List (String × Nat)) (ip : String)
    (h : ∀ p ∈ l, 1 ≤ p.2) : ∀ p ∈ counterAdd l ip, 1 ≤ p.2 := by
  induction l with
  | nil =>
    intro p hp
    simp only [counterAdd, List.mem_singleton] at hp
    simp [hp]
  | cons q t ih =>
    obtain ⟨k, v⟩ := q
    intro p hp
    by_cases hk : k = ip
    · subst hk
      simp only [counterAdd, if_true, List.mem_cons] at hp
      rcases hp with hp | hp
      · simp [hp]
      · exact h p (List.mem_cons_of_mem _ hp)
    · simp only [counterAdd, hk, if_false, List.mem_cons] at hp
      rcases hp with hp | hp
      · exact h p (hp ▸ List.mem_cons_self _ _)
      · exact ih (fun q hq => h q (List.mem_cons_of_mem _ hq)) p hp

/-! ## `most_common` is a stable descending sort -/

theorem insertDesc_perm (x : String × Nat) (l : List (String × Nat)) :
    (insertDesc x l).Perm (x :: l) := by
  induction l with
  | nil => exact List.Perm.refl _
  | cons y ys ih =>
    simp only [insertDesc]
    split
    · exact ((ih.cons y).trans (List.Perm.swap x y ys))
    · exact List.Perm.refl _

theorem most_common_perm (l : List (String × Nat)) : (most_common l).Perm l := by
  induction l with
  | nil => exact List.Perm.refl _
  | cons x xs ih =>
    exact (insertDesc_perm x (most_common xs)).trans (ih.cons x)

theorem insertDesc_pairwise (x : String × Nat) (l : List (String × Nat))
    (h : l.Pairwise (fun a b => b.2 ≤ a.2)) :
    (insertDesc x l).Pairwise (fun a b => b.2 ≤ a.2) := by
  induction l with
  | nil => simp [insertDesc]
  | cons y ys ih =>
    rw [List.pairwise_cons] at h
    obtain ⟨hy, hys⟩ := h
    simp only [insertDesc]
    split
    · rename_i hlt
      rw [List.pairwise_cons]
      refine ⟨?_, ih hys⟩
      intro z hz
      have hz2 := (insertDesc_perm x ys).mem_iff.mp hz
      rcases List.mem_cons.mp hz2 with h2 | h2
      · subst h2
        omega
      · exact hy z h2
    · rename_i hge
      rw [List.pairwise_cons]
      refine ⟨?_, List.pairwise_cons.mpr ⟨hy, hys⟩⟩
      intro z hz
      rcases List.mem_cons.mp hz with h2 | h2
      · subst h2
        omega
      · have := hy z h2
        omega

theorem most_common_pairwise (l : List (String × Nat)) :
    (most_common l).Pairwise (fun a b => b.2 ≤ a.2) := by
  induction l with
  | nil => simp [most_common]
  | cons x xs ih => exact insertDesc_pairwise x (most_common xs) ih

theorem insertDesc_filter (x : String × Nat) (l : List (String × Nat)) (v : Nat) :
    (insertDesc x l).filter (fun p => p.2 == v) =
      (x :: l).filter (fun p => p.2 == v) := by
  induction l with
  | nil => rfl
  | cons y ys ih =>
    simp only [insertDesc]
    split
    · rename_i hlt
      by_cases hy : y.2 = v
      · have hx : (x.2 == v) = false := by
          rw [beq_eq_false_iff_ne]
          omega
        simp only [List.filter_cons, hy, beq_self_eq_true, if_true, ih,
          List.filter_cons, hx]
        simp [hy]
      · have hy2 : (y.2 == v) = false := by rw [beq_eq_false_iff_ne]; exact hy
        simp only [List.filter_cons, hy2, Bool.false_eq_true, if_false, ih]
    · rfl

theorem most_common_filter (l : List (String × Nat)) (v : Nat) :
    (most_common l).filter (fun p => p.2 == v) = l.filter (fun p => p.2 == v) := by
  induction l with
  | nil => rfl
  | cons x xs ih =>
    simp only [most_common]
    rw [insertDesc_filter, List.filter_cons, List.filter_cons, ih]

/-! ## Analyzer step lemmas -/

theorem updSeen_ok_cases {cmp : DateTime → DateTime → Bool}
    {m m' : List (String × Option DateTime)} {ip : String} {dt : Option DateTime}
    (h : updSeen cmp m ip dt = .ok m') :
    (lookupA m ip = none ∧ m' = setA m ip dt) ∨
    (∃ cur, lookupA m ip = some cur ∧ dt = none ∧ m' = m) ∨
    (∃ c d, lookupA m ip = some (some c) ∧ dt = some d ∧
      m' = if cmp d c then setA m ip (some d) else m) := by
  unfold updSeen at h
  cases hl : lookupA m ip with
  | none =>
    rw [hl] at h
    cases h
    exact Or.inl ⟨rfl, rfl⟩
  | some cur =>
    rw [hl] at h
    cases dt with
    | none =>
      cases h
      exact Or.inr (Or.inl ⟨cur, rfl, rfl, rfl⟩)
    | some d =>
      cases cur with
      | none => cases h
      | some c =>
        cases h
        exact Or.inr (Or.inr ⟨c, d, rfl, rfl, rfl⟩)

theorem analyze_step_ok_cases {year : Nat} {st st1 : AnalysisResult} {l : String}
    (h : analyze_step year st l = .ok st1) :
    (parse_line l year = none ∧ st1 = { st with total_lines := st.total_lines + 1 }) ∨
    (∃ ip dt fs ls, parse_line l year = some (ip, dt) ∧
      updSeen DateTime.ltb st.first_seen ip dt = .ok fs ∧
      updSeen (fun d c => DateTime.ltb c d) st.last_seen ip dt = .ok ls ∧
      st1 = { total_lines := st.total_lines + 1,
              matched_lines := st.matched_lines + 1,
              counts := counterAdd st.counts ip,
              first_seen := fs, last_seen := ls }) := by
  unfold analyze_step at h
  cases hp : parse_line l year with
  | none =>
    rw [hp] at h
    cases h
    exact Or.inl ⟨rfl, rfl⟩
  | some p =>
    obtain ⟨ip, dt⟩ := p
    rw [hp] at h
    simp only at h
    cases hf : updSeen DateTime.ltb st.first_seen ip dt with
    | error e => rw [hf] at h; cases h
    | ok fs =>
      rw [hf] at h
      cases hl : updSeen (fun d c => DateTime.ltb c d) st.last_seen ip dt with
      | error e => rw [hl] at h; cases h
      | ok ls =>
        rw [hl] at h
        cases h
        exact Or.inr ⟨ip, dt, fs, ls, rfl, hf, hl, rfl⟩

/-! ## Fold invariants: totals, count sum, key alignment -/

theorem analyze_lines_totals (year : Nat) : ∀ (ls : List String) (st r : AnalysisResult),
    analyze_lines year st ls = .ok r →
    r.total_lines = st.total_lines + ls.length ∧
    r.matched_lines = st.matched_lines +
      ls.countP (fun l => (parse_line l year).isSome) := by
  intro ls
  induction ls with
  | nil =>
    intro st r h
    cases h
    simp
  | cons l t ih =>
    intro st r h
    simp only [analyze_lines] at h
    cases hs : analyze_step year st l with
    | error e => rw [hs] at h; cases h
    | ok st1 =>
      rw [hs] at h
      obtain ⟨h1, h2⟩ := ih st1 r h
      rcases analyze_step_ok_cases hs with ⟨hp, he⟩ | ⟨ip, dt, fs, lsn, hp, -, -, he⟩
      · subst he
        simp only at h1 h2
        rw [List.countP_cons, hp]
        simp only [Option.isSome_none, Bool.false_eq_true, if_false,
          List.length_cons]
        omega
      · subst he
        simp only at h1 h2
        rw [List.countP_cons, hp]
        simp only [Option.isSome_some, if_true, List.length_cons]
        omega

theorem analyze_lines_sum (year : Nat) : ∀ (ls : List String) (st r : AnalysisResult),
    analyze_lines year st ls = .ok r →
    (st.counts.map Prod.snd).sum = st.matched_lines →
    (r.counts.map Prod.snd).sum = r.matched_lines := by
  intro ls
  induction ls with
  | nil =>
    intro st r h hsum
    cases h
    exact hsum
  | cons l t ih =>
    intro st r h hsum
    simp only [analyze_lines] at h
    cases hs : analyze_step year st l with
    | error e => rw [hs] at h; cases h
    | ok st1 =>
      rw [hs] at h
      refine ih st1 r h ?_
      rcases analyze_step_ok_cases hs with ⟨hp, he⟩ | ⟨ip, dt, fs, lsn, hp, -, -, he⟩
      · subst he
        exact hsum
      · subst he
        simp only [counterAdd_sum]
        omega

theorem keys_aligned_step {year : Nat} {st st1 : AnalysisResult} {l : String}
    (hs : analyze_step year st l = .ok st1) (hk : KeysAligned st) :
    KeysAligned st1 := by
  obtain ⟨hfk, hlk, hpos⟩ := hk
  rcases analyze_step_ok_cases hs with ⟨hp, he⟩ | ⟨ip, dt, fs, lsn, hp, hf, hl, he⟩
  · subst he
    exact ⟨hfk, hlk, hpos⟩
  · subst he
    refine ⟨?_, ?_, counterAdd_pos st.counts ip hpos⟩
    · cases hc : lookupA st.counts ip with
      | none =>
        have hfs : lookupA st.first_seen ip = none := by
          rw [lookupA_eq_none_iff, hfk, ← lookupA_eq_none_iff]
          exact hc
        rcases updSeen_ok_cases hf with ⟨-, hfe⟩ | ⟨cur, hcur, -, -⟩ | ⟨c, d, hcur, -, -⟩
        · subst hfe
          simp only
          rw [setA_keys_of_none st.first_seen ip dt hfs,
            counterAdd_keys_of_none st.counts ip hc, hfk]
        · rw [hfs] at hcur; cases hcur
        · rw [hfs] at hcur; cases hcur
      | some c0 =>
        have hfs : (lookupA st.first_seen ip).isSome = true := by
          rw [lookupA_isSome_iff, hfk, ← lookupA_isSome_iff, hc]
          rfl
        rcases updSeen_ok_cases hf with ⟨hfn, -⟩ | ⟨cur, hcur, -, hfe⟩ | ⟨c, d, hcur, -, hfe⟩
        · rw [hfn] at hfs; cases hfs
        · subst hfe
          simp only
          rw [counterAdd_keys_of_some st.counts ip c0 hc, hfk]
        · subst hfe
          simp only
          rw [counterAdd_keys_of_some st.counts ip c0 hc]
          split
          · rw [setA_keys_of_some st.first_seen ip _ _ hcur, hfk]
          · exact hfk
    · cases hc : lookupA st.counts ip with
      | none =>
        have hls : lookupA st.last_seen ip = none := by
          rw [lookupA_eq_none_iff, hlk, ← lookupA_eq_none_iff]
          exact hc
        rcases updSeen_ok_cases hl with ⟨-, hle⟩ | ⟨cur, hcur, -, -⟩ | ⟨c, d, hcur, -, -⟩
        · subst hle
          simp only
          rw [setA_keys_of_none st.last_seen ip dt hls,
            counterAdd_keys_of_none st.counts ip hc, hlk]
        · rw [hls] at hcur; cases hcur
        · rw [hls] at hcur; cases hcur
      | some c0 =>
        have hls : (lookupA st.last_seen ip).isSome = true := by
          rw [lookupA_isSome_iff, hlk, ← lookupA_isSome_iff, hc]
          rfl
        rcases updSeen_ok_cases hl with ⟨hln, -⟩ | ⟨cur, hcur, -, hle⟩ | ⟨c, d, hcur, -, hle⟩
        · rw [hln] at hls; cases hls
        · subst hle
          simp only
          rw [counterAdd_keys_of_some st.counts ip c0 hc, hlk]
        · subst hle
          simp only
          rw [counterAdd_keys_of_some st.counts ip c0 hc]
          split
          · rw [setA_keys_of_some st.last_seen ip _ _ hcur, hlk]
          · exact hlk

theorem analyze_lines_keys (year : Nat) : ∀ (ls : List String) (st r : AnalysisResult),
    analyze_lines year st ls = .ok r → KeysAligned st → KeysAligned r := by
  intro ls
  induction ls with
  | nil =>
    intro st r h hk
    cases h
    exact hk
  | cons l t ih =>
    intro st r h hk
    simp only [analyze_lines] at h
    cases hs : analyze_step year st l with
    | error e => rw [hs] at h; cases h
    | ok st1 =>
      rw [hs] at h
      exact ih st1 r h (keys_aligned_step hs hk)

/-! ## Fold invariant: first seen never after last seen -/

theorem seen_step {fs ls : List (String × Option DateTime)} {ip : String} {d : DateTime}
    (inv : SeenPair fs ls) :
    ∃ fs' ls', updSeen DateTime.ltb fs ip (some d) = .ok fs' ∧
      updSeen (fun a b => DateTime.ltb b a) ls ip (some d) = .ok ls' ∧
      SeenPair fs' ls' := by
  obtain ⟨hkeys, hfv, hlv, hord⟩ := inv
  cases hf : lookupA fs ip with
  | none =>
    have hl : lookupA ls ip = none := by
      rw [lookupA_eq_none_iff, ← hkeys, ← lookupA_eq_none_iff]
      exact hf
    refine ⟨setA fs ip (some d), setA ls ip (some d), ?_, ?_, ?_, ?_, ?_, ?_⟩
    · simp only [updSeen, hf]
    · simp only [updSeen, hl]
    · rw [setA_keys_of_none _ _ _ hf, setA_keys_of_none _ _ _ hl, hkeys]
    · intro p hp
      rcases mem_setA hp with h | h
      · rw [h]; rfl
      · exact hfv p h
    · intro p hp
      rcases mem_setA hp with h | h
      · rw [h]; rfl
      · exact hlv p h
    · intro q f l hqf hql
      by_cases hq : q = ip
      · subst hq
        rw [lookupA_setA_self] at hqf hql
        cases hqf
        cases hql
        exact ltb_irrefl d
      · rw [lookupA_setA_ne _ _ _ _ hq] at hqf hql
        exact hord q f l hqf hql
  | some cur =>
    have hcs : cur.isSome = true := hfv (ip, cur) (lookupA_some_mem hf)
    cases cur with
    | none => simp at hcs
    | some c =>
      have hlsome : (lookupA ls ip).isSome = true := by
        rw [lookupA_isSome_iff, ← hkeys, ← lookupA_isSome_iff, hf]
        rfl
      cases hl : lookupA ls ip with
      | none => rw [hl] at hlsome; simp at hlsome
      | some cur' =>
        have hcs' : cur'.isSome = true := hlv (ip, cur') (lookupA_some_mem hl)
        cases cur' with
        | none => simp at hcs'
        | some c' =>
          have hordc : DateTime.ltb c' c = false := hord ip c c' hf hl
          refine ⟨if DateTime.ltb d c then setA fs ip (some d) else fs,
                  if DateTime.ltb c' d then setA ls ip (some d) else ls,
                  ?_, ?_, ?_⟩
          · simp only [updSeen, hf]
          · simp only [updSeen, hl]
          · have hkeys1 : (if DateTime.ltb d c then setA fs ip (some d) else fs).map
                Prod.fst = fs.map Prod.fst := by
              split
              · exact setA_keys_of_some fs ip _ _ hf
              · rfl
            have hkeys2 : (if DateTime.ltb c' d then setA ls ip (some d) else ls).map
                Prod.fst = ls.map Prod.fst := by
              split
              · exact setA_keys_of_some ls ip _ _ hl
              · rfl
            refine ⟨by rw [hkeys1, hkeys2, hkeys], ?_, ?_, ?_⟩
            · intro p hp
              by_cases hb : DateTime.ltb d c = true
              · rw [if_pos hb] at hp
                rcases mem_setA hp with h | h
                · rw [h]; rfl
                · exact hfv p h
              · rw [if_neg hb] at hp
                exact hfv p hp
            · intro p hp
              by_cases hb : DateTime.ltb c' d = true
              · rw [if_pos hb] at hp
                rcases mem_setA hp with h | h
                · rw [h]; rfl
                · exact hlv p h
              · rw [if_neg hb] at hp
                exact hlv p hp
            · intro q f l hqf hql
              by_cases hq : q = ip
              · subst hq
                by_cases hb1 : DateTime.ltb d c = true
                · rw [if_pos hb1, lookupA_setA_self] at hqf
                  cases hqf
                  by_cases hb2 : DateTime.ltb c' d = true
                  · rw [if_pos hb2, lookupA_setA_self] at hql
                    cases hql
                    exact ltb_irrefl d
                  · rw [if_neg hb2, hl] at hql
                    cases hql
                    simp only [Bool.not_eq_true] at hb2
                    exact hb2
                · rw [if_neg hb1, hf] at hqf
                  cases hqf
                  simp only [Bool.not_eq_true] at hb1
                  by_cases hb2 : DateTime.ltb c' d = true
                  · rw [if_pos hb2, lookupA_setA_self] at hql
                    cases hql
                    exact hb1
                  · rw [if_neg hb2, hl] at hql
                    cases hql
                    exact hordc
              · have hf2 : lookupA (if DateTime.ltb d c then setA fs ip (some d)
                    else fs) q = lookupA fs q := by
                  split
                  · exact lookupA_setA_ne fs ip q _ hq
                  · rfl
                have hl2 : lookupA (if DateTime.ltb c' d then setA ls ip (some d)
                    else ls) q = lookupA ls q := by
                  split
                  · exact lookupA_setA_ne ls ip q _ hq
                  · rfl
                rw [hf2] at hqf
                rw [hl2] at hql
                exact hord q f l hqf hql

theorem analyze_lines_ordered (year : Nat) : ∀ (ls : List String) (st : AnalysisResult),
    (∀ l ∈ ls, Option.all (fun p => p.2.isSome) (parse_line l year) = true) →
    SeenPair st.first_seen st.last_seen →
    ∃ r, analyze_lines year st ls = .ok r ∧ SeenPair r.first_seen r.last_seen := by
  intro ls
  induction ls with
  | nil =>
    intro st _ inv
    exact ⟨st, rfl, inv⟩
  | cons l t ih =>
    intro st H inv
    have Ht : ∀ l2 ∈ t, Option.all (fun p => p.2.isSome) (parse_line l2 year) = true :=
      fun l2 h2 => H l2 (List.mem_cons_of_mem l h2)
    cases hp : parse_line l year with
    | none =>
      have hstep : analyze_step year st l =
          .ok { st with total_lines := st.total_lines + 1 } := by
        unfold analyze_step
        rw [hp]
      obtain ⟨r, hr, hinv⟩ :=
        ih { st with total_lines := st.total_lines + 1 } Ht inv
      refine ⟨r, ?_, hinv⟩
      simp only [analyze_lines, hstep]
      exact hr
    | some p =>
      obtain ⟨ip, dt⟩ := p
      have hds : dt.isSome = true := by
        have := H l (List.mem_cons_self l t)
        rw [hp] at this
        simpa [Option.all] using this
      obtain ⟨d, hd⟩ := Option.isSome_iff_exists.mp hds
      subst hd
      obtain ⟨fs', ls', hfu, hlu, hinv'⟩ :=
        @seen_step st.first_seen st.last_seen ip d inv
      have hstep : analyze_step year st l =
          .ok { total_lines := st.total_lines + 1,
                matched_lines := st.matched_lines + 1,
                counts := counterAdd st.counts ip,
                first_seen := fs', last_seen := ls' } := by
        unfold analyze_step
        rw [hp]
        simp only
        rw [hfu, hlu]
      obtain ⟨r, hr, hinv2⟩ :=
        ih { total_lines := st.total_lines + 1,
             matched_lines := st.matched_lines + 1,
             counts := counterAdd st.counts ip,
             first_seen := fs', last_seen := ls' } Ht hinv'
      refine ⟨r, ?_, hinv2⟩
      simp only [analyze_lines, hstep]
      exact hr

/-! ## Claim theorems -/

/-- C1 (counterexample): a first matched line for `9.9.9.9` with the invalid
date Feb 30 records an absent `first_seen`; a second matched line for the
same IP with the valid date Feb 28 then produces a present timestamp, and
`analyze_log` does not complete: comparing the new timestamp with the
stored absent value raises (the claim asserts the new timestamp replaces
the absent value and the analysis completes without error). -/
theorem claim1_counterexample :
    parse_line "Feb 30 10:00:00 host sshd: Failed password for root from 9.9.9.9 port 1 ssh2" 2024
      = some ("9.9.9.9", none) ∧
    parse_line "Feb 28 10:00:00 host sshd: Failed password for root from 9.9.9.9 port 1 ssh2" 2024
      = some ("9.9.9.9", some ⟨2024, 2, 28, 10, 0, 0⟩) ∧
    analyze_log 2024
      ["Feb 30 10:00:00 host sshd: Failed password for root from 9.9.9.9 port 1 ssh2",
       "Feb 28 10:00:00 host sshd: Failed password for root from 9.9.9.9 port 1 ssh2"]
      = .error () :=
  ⟨rfl, rfl, rfl⟩

/-- C1 (amended): whenever an IP's stored `first_seen` is the absent value
and a later matched line for that IP parses to a present timestamp, the
update step raises an uncaught `TypeError` (comparing a `datetime` with
`None`): the absent value is never replaced and the analysis does not
complete. -/
theorem claim1_amended (year : Nat) (st : AnalysisResult) (line ip : String)
    (d : DateTime)
    (h1 : lookupA st.first_seen ip = some none)
    (h2 : parse_line line year = some (ip, some d)) :
    analyze_step year st line = .error () := by
  unfold analyze_step
  rw [h2]
  simp only
  have hu : updSeen DateTime.ltb st.first_seen ip (some d) = .error () := by
    simp only [updSeen, h1]
  rw [hu]

/-- C1 (amended, witness): the amended claim at the concrete state reached
after the Feb 30 line, fed the valid Feb 28 line. -/
theorem claim1_amended_witness :
    analyze_step 2024
      ⟨1, 1, [("9.9.9.9", 1)], [("9.9.9.9", none)], [("9.9.9.9", none)]⟩
      "Feb 28 10:00:00 host sshd: Failed password for root from 9.9.9.9 port 1 ssh2"
      = .error () :=
  claim1_amended 2024
    ⟨1, 1, [("9.9.9.9", 1)], [("9.9.9.9", none)], [("9.9.9.9", none)]⟩
    "Feb 28 10:00:00 host sshd: Failed password for root from 9.9.9.9 port 1 ssh2"
    "9.9.9.9" ⟨2024, 2, 28, 10, 0, 0⟩ (by rfl) (by rfl)

/-- C2 (counterexample): the line `sshd Failed password from 1.2.3.4`
contains `sshd`, a trigger phrase and a dotted-quad IP preceded by `from`,
yet `parse_line` returns no match (the month/day/time header is missing),
so "no match iff one of the three ingredients is missing" is false. -/
theorem claim2_counterexample :
    ¬ ((parse_line "sshd Failed password from 1.2.3.4" 2024 = none) ↔
      (hasSshd ("sshd Failed password from 1.2.3.4".toList) = false ∨
       hasTrigger ("sshd Failed password from 1.2.3.4".toList) = false ∨
       hasFromIp ("sshd Failed password from 1.2.3.4".toList) = false)) := by
  decide

/-- C2 (amended): `parse_line` returns no match if and only if no segment
of the line matches, in order: a three-character word (the month), spaces,
a one-or-two-digit day, spaces, an `HH:MM:SS` time, then `sshd`, then
`Failed password` or `Invalid user`, then `from`, spaces and a dotted-quad
IP — as captured by the declarative semantics `Accepts` of `PATTERN`. -/
theorem claim2_amended (line : String) (year : Nat) :
    parse_line line year = none ↔
      ¬ ∃ pre u v, line.data = pre ++ u ++ v ∧ Accepts PATTERN u := by
  rw [parse_line_eq_none_iff]
  constructor
  · intro h hex
    have hs : (reSearch PATTERN line.data).isSome = true :=
      (reSearch_isSome_iff PATTERN line.data).mpr hex
    rw [h] at hs
    simp at hs
  · intro h
    cases hr : reSearch PATTERN line.data with
    | none => rfl
    | some caps =>
      exact absurd ((reSearch_isSome_iff PATTERN line.data).mp (by rw [hr]; rfl)) h

/-- C3: a line that matches the pattern but whose date fields do not form
a valid calendar date still yields a match with an absent timestamp, and
the analyzer step succeeds (no exception), incrementing `total_lines`,
`matched_lines` and that IP's count. -/
theorem claim3_invalid_date_counted (year : Nat) (line : String)
    (caps : List (Nat × List Char)) (st : AnalysisResult)
    (hm : reSearch PATTERN line.data = some caps)
    (hdt : groupsDT year caps = none) :
    parse_line line year = some (String.mk (capGet caps 4), none) ∧
    ∃ st1, analyze_step year st line = .ok st1 ∧
      st1.total_lines = st.total_lines + 1 ∧
      st1.matched_lines = st.matched_lines + 1 ∧
      lookupA st1.counts (String.mk (capGet caps 4)) =
        some ((lookupA st.counts (String.mk (capGet caps 4))).getD 0 + 1) := by
  have hp : parse_line line year = some (String.mk (capGet caps 4), none) := by
    simp only [parse_line, hm, hdt]
  refine ⟨hp, ?_⟩
  have hfu : ∃ fs, updSeen DateTime.ltb st.first_seen (String.mk (capGet caps 4))
      none = .ok fs := by
    unfold updSeen
    cases lookupA st.first_seen (String.mk (capGet caps 4)) <;> exact ⟨_, rfl⟩
  have hlu : ∃ ls2, updSeen (fun d c => DateTime.ltb c d) st.last_seen
      (String.mk (capGet caps 4)) none = .ok ls2 := by
    unfold updSeen
    cases lookupA st.last_seen (String.mk (capGet caps 4)) <;> exact ⟨_, rfl⟩
  obtain ⟨fs, hfs⟩ := hfu
  obtain ⟨ls2, hls⟩ := hlu
  refine ⟨{ total_lines := st.total_lines + 1, matched_lines := st.matched_lines + 1,
            counts := counterAdd st.counts (String.mk (capGet caps 4)),
            first_seen := fs, last_seen := ls2 },
    ?_, rfl, rfl, counterAdd_lookup_self _ _⟩
  unfold analyze_step
  rw [hp]
  simp only
  rw [hfs, hls]

/-- C3 (witness): the Feb 30 line, processed from the empty state. -/
theorem claim3_witness :
    parse_line "Feb 30 10:00:00 host sshd: Failed password for root from 9.9.9.9 port 1 ssh2" 2024
      = some ("9.9.9.9", none) ∧
    ∃ st1, analyze_step 2024 ⟨0, 0, [], [], []⟩
        "Feb 30 10:00:00 host sshd: Failed password for root from 9.9.9.9 port 1 ssh2"
        = .ok st1 ∧
      st1.total_lines = 1 ∧
      st1.matched_lines = 1 ∧
      lookupA st1.counts "9.9.9.9" = some 1 :=
  claim3_invalid_date_counted 2024
    "Feb 30 10:00:00 host sshd: Failed password for root from 9.9.9.9 port 1 ssh2"
    [(1, ['F', 'e', 'b']), (2, ['3', '0']),
      (3, ['1', '0', ':', '0', '0', ':', '0', '0']),
      (4, ['9', '.', '9', '.', '9', '.', '9'])]
    ⟨0, 0, [], [], []⟩ (by rfl) (by rfl)

/-- C4: over lines whose matches all carry a present timestamp, the
analysis of every prefix succeeds and satisfies
`first_seen ≤ last_seen` (strictly before, or equal) for every IP with
both entries present — the invariant is maintained after each line. -/
theorem claim4_first_le_last (year : Nat) (lines : List String)
    (H : ∀ l ∈ lines, Option.all (fun p => p.2.isSome) (parse_line l year) = true)
    (n : Nat) :
    ∃ r, analyze_log year (lines.take n) = .ok r ∧
      ∀ ip f l, lookupA r.first_seen ip = some (some f) →
        lookupA r.last_seen ip = some (some l) →
        (DateTime.ltb f l = true ∨ f = l) := by
  have Ht : ∀ l ∈ lines.take n,
      Option.all (fun p => p.2.isSome) (parse_line l year) = true :=
    fun l hl => H l (List.take_subset n lines hl)
  have hinit : SeenPair ([] : List (String × Option DateTime)) [] := by
    refine ⟨rfl, ?_, ?_, ?_⟩
    · intro p hp
      simp at hp
    · intro p hp
      simp at hp
    · intro ip f l hf hl
      simp [lookupA] at hf
  obtain ⟨r, hr, hinv⟩ :=
    analyze_lines_ordered year (lines.take n) ⟨0, 0, [], [], []⟩ Ht hinit
  refine ⟨r, hr, ?_⟩
  intro ip f l hf hl
  have hord := hinv.2.2.2 ip f l hf hl
  by_cases hfl : DateTime.ltb f l = true
  · exact Or.inl hfl
  · exact Or.inr (ltb_conn (by simpa using hfl) hord)

/-- C4 (witness): the claim at the two matched lines of `La` (both with
valid timestamps), prefix length 3. -/
theorem claim4_witness :
    ∃ r, analyze_log 2024 (La.take 3) = .ok r ∧
      ∀ ip f l, lookupA r.first_seen ip = some (some f) →
        lookupA r.last_seen ip = some (some l) →
        (DateTime.ltb f l = true ∨ f = l) :=
  claim4_first_le_last 2024 La (by decide) 3

/-- C5: the summary reporter's top-N rows are, IP and count wise, exactly
the N-long head of the CSV exporter's rows; the shared order
`most_common` is a permutation of the insertion-ordered counts, sorted by
descending count, and stable: the entries of any fixed count keep their
insertion order. -/
theorem claim5_ordering (r : AnalysisResult) (n : Nat) :
    (pretty_print_summary r n).topRows.map (fun q => (q.1, q.2.1)) =
      ((save_csv_rows r.counts r.first_seen r.last_seen).map
        (fun row => (row.ip, row.count))).take n ∧
    (most_common r.counts).Perm r.counts ∧
    (most_common r.counts).Pairwise (fun a b => b.2 ≤ a.2) ∧
    ∀ v, (most_common r.counts).filter (fun p => p.2 == v) =
      r.counts.filter (fun p => p.2 == v) := by
  refine ⟨?_, most_common_perm r.counts, most_common_pairwise r.counts,
    fun v => most_common_filter r.counts v⟩
  simp only [pretty_print_summary, save_csv_rows, List.map_map, ← List.map_take]
  rfl

/-- C6: when the input file does not exist, `main` prints the
file-not-found message, prints no summary and writes no CSV even when an
output path was requested; and this is the only handled error: any
exception raised by the analysis propagates out of `main`. -/
theorem claim6_file_not_found (year : Nat) :
    (∀ (top : Nat) (out : Option String),
      main_run year none top out = .ok ⟨true, none, none⟩) ∧
    (∀ (lines : List String) (top : Nat) (out : Option String) (e : Unit),
      analyze_log year lines = .error e →
      main_run year (some lines) top out = .error e) := by
  refine ⟨fun top out => rfl, ?_⟩
  intro lines top out e h
  simp only [main_run, h]

/-- C6 (witness): a missing file with `--out` set produces only the
message; the Feb 30 / Feb 28 crash input makes `main` propagate the
error. -/
theorem claim6_witness :
    main_run 2024 none 10 (some "result.csv") = .ok ⟨true, none, none⟩ ∧
    main_run 2024
      (some ["Feb 30 10:00:00 host sshd: Failed password for root from 9.9.9.9 port 1 ssh2",
             "Feb 28 10:00:00 host sshd: Failed password for root from 9.9.9.9 port 1 ssh2"])
      10 (some "result.csv") = .error () :=
  ⟨(claim6_file_not_found 2024).1 10 (some "result.csv"),
   (claim6_file_not_found 2024).2
     ["Feb 30 10:00:00 host sshd: Failed password for root from 9.9.9.9 port 1 ssh2",
      "Feb 28 10:00:00 host sshd: Failed password for root from 9.9.9.9 port 1 ssh2"]
     10 (some "result.csv") () (by rfl)⟩

/-- C7: a successful analysis counts every line in `total_lines`, counts
in `matched_lines` exactly the lines on which `parse_line` returns a
match, and `matched_lines` never exceeds `total_lines`. -/
theorem claim7_totals (year : Nat) (lines : List String) (r : AnalysisResult)
    (h : analyze_log year lines = .ok r) :
    r.total_lines = lines.length ∧
    r.matched_lines = lines.countP (fun l => (parse_line l year).isSome) ∧
    r.matched_lines ≤ r.total_lines := by
  obtain ⟨h1, h2⟩ := analyze_lines_totals year lines ⟨0, 0, [], [], []⟩ r h
  simp only at h1 h2
  have hc := List.countP_le_length (p := fun l => (parse_line l year).isSome)
    (l := lines)
  exact ⟨by omega, by omega, by omega⟩

/-- C7 (witness): the three-line input `La` (two matches, one noise). -/
theorem claim7_witness :
    Ra.total_lines = La.length ∧
    Ra.matched_lines = La.countP (fun l => (parse_line l 2024).isSome) ∧
    Ra.matched_lines ≤ Ra.total_lines :=
  claim7_totals 2024 La Ra (by rfl)

/-- C8: for a successful analysis, the count column of the CSV rows (one
row per distinct IP) sums to `matched_lines`. -/
theorem claim8_csv_sum (year : Nat) (lines : List String) (r : AnalysisResult)
    (h : analyze_log year lines = .ok r) :
    ((save_csv_rows r.counts r.first_seen r.last_seen).map
      (fun row => row.count)).sum = r.matched_lines := by
  have hsum := analyze_lines_sum year lines ⟨0, 0, [], [], []⟩ r h (by simp)
  have hmap : (save_csv_rows r.counts r.first_seen r.last_seen).map
      (fun row => row.count) = (most_common r.counts).map Prod.snd := by
    simp only [save_csv_rows, List.map_map]
    rfl
  rw [hmap]
  rw [((most_common_perm r.counts).map Prod.snd).sum_eq]
  exact hsum

/-- C8 (witness): the CSV of `La`'s analysis sums to its 2 matches. -/
theorem claim8_witness :
    ((save_csv_rows Ra.counts Ra.first_seen Ra.last_seen).map
      (fun row => row.count)).sum = Ra.matched_lines :=
  claim8_csv_sum 2024 La Ra (by rfl)

/-- C9: asking the reporter for more IPs than exist lists every distinct
IP without error; asking for zero lists none; the totals are printed
either way. -/
theorem claim9_topn (r : AnalysisResult) (n : Nat) :
    (r.counts.length < n →
      (pretty_print_summary r n).topRows.length = r.counts.length ∧
      ((pretty_print_summary r n).topRows.map (fun q => q.1)).Perm
        (r.counts.map Prod.fst)) ∧
    (pretty_print_summary r 0).topRows = [] ∧
    (pretty_print_summary r n).total_lines = r.total_lines ∧
    (pretty_print_summary r n).matched_lines = r.matched_lines := by
  have hlen : (most_common r.counts).length = r.counts.length :=
    (most_common_perm r.counts).length_eq
  refine ⟨?_, by simp [pretty_print_summary], rfl, rfl⟩
  intro hn
  have htake : (most_common r.counts).take n = most_common r.counts :=
    List.take_of_length_le (by omega)
  constructor
  · simp only [pretty_print_summary, List.length_map, List.length_take]
    omega
  · simp only [pretty_print_summary, htake, List.map_map]
    exact (most_common_perm r.counts).map _

/-- C9 (witness): the two-IP result `Rw` with N = 5 and N = 0. -/
theorem claim9_witness :
    ((pretty_print_summary Rw 5).topRows.length = Rw.counts.length ∧
      ((pretty_print_summary Rw 5).topRows.map (fun q => q.1)).Perm
        (Rw.counts.map Prod.fst)) ∧
    (pretty_print_summary Rw 0).topRows = [] ∧
    (pretty_print_summary Rw 5).total_lines = Rw.total_lines ∧
    (pretty_print_summary Rw 5).matched_lines = Rw.matched_lines :=
  ⟨(claim9_topn Rw 5).1 (by decide), (claim9_topn Rw 5).2⟩

/-- C10: after a successful analysis the three dicts have identical key
lists, every count is at least 1, and an IP has a (possibly
absent-valued) `first_seen` / `last_seen` entry exactly when its count
exists and is at least 1. -/
theorem claim10_key_sets (year : Nat) (lines : List String) (r : AnalysisResult)
    (h : analyze_log year lines = .ok r) :
    r.first_seen.map Prod.fst = r.counts.map Prod.fst ∧
    r.last_seen.map Prod.fst = r.counts.map Prod.fst ∧
    (∀ p ∈ r.counts, 1 ≤ p.2) ∧
    ∀ ip, ((lookupA r.first_seen ip).isSome = true ↔
        ∃ c, lookupA r.counts ip = some c ∧ 1 ≤ c) ∧
      ((lookupA r.last_seen ip).isSome = true ↔
        ∃ c, lookupA r.counts ip = some c ∧ 1 ≤ c) := by
  have hk : KeysAligned r := by
    refine analyze_lines_keys year lines ⟨0, 0, [], [], []⟩ r h ⟨rfl, rfl, ?_⟩
    intro p hp
    simp at hp
  obtain ⟨h1, h2, h3⟩ := hk
  refine ⟨h1, h2, h3, ?_⟩
  intro ip
  constructor
  · constructor
    · intro hs
      rw [lookupA_isSome_iff, h1, ← lookupA_isSome_iff] at hs
      obtain ⟨c, hc⟩ := Option.isSome_iff_exists.mp hs
      exact ⟨c, hc, h3 (ip, c) (lookupA_some_mem hc)⟩
    · rintro ⟨c, hc, -⟩
      rw [lookupA_isSome_iff, h1, ← lookupA_isSome_iff, hc]
      rfl
  · constructor
    · intro hs
      rw [lookupA_isSome_iff, h2, ← lookupA_isSome_iff] at hs
      obtain ⟨c, hc⟩ := Option.isSome_iff_exists.mp hs
      exact ⟨c, hc, h3 (ip, c) (lookupA_some_mem hc)⟩
    · rintro ⟨c, hc, -⟩
      rw [lookupA_isSome_iff, h2, ← lookupA_isSome_iff, hc]
      rfl

/-- C10 (witness): the claim at `La`'s analysis result. -/
theorem claim10_witness :
    Ra.first_seen.map Prod.fst = Ra.counts.map Prod.fst ∧
    Ra.last_seen.map Prod.fst = Ra.counts.map Prod.fst ∧
    (∀ p ∈ Ra.counts, 1 ≤ p.2) ∧
    ∀ ip, ((lookupA Ra.first_seen ip).isSome = true ↔
        ∃ c, lookupA Ra.counts ip = some c ∧ 1 ≤ c) ∧
      ((lookupA Ra.last_seen ip).isSome = true ↔
        ∃ c, lookupA Ra.counts ip = some c ∧ 1 ≤ c) :=
  claim10_key_sets 2024 La Ra (by rfl)

end AnalyseAuth
